import Mathlib

/-!
Shallow embedding of the mesh streaming subsystem of
`indra/newview/llmeshrepository.cpp`: the mesh header fallback search,
the request scheduler (dedup, coalescing, priority tick), the repo
worker thread fetch path, the failure classification, the decomposition
result merging and the single hull fallback.

Machine integers of the source (S32, U32) are modelled as `Int` or
`Nat`; the quantities involved (LOD indices, queue lengths, block
offsets) stay far below any overflow boundary in every statement made
here, so no modular reduction is applied.  F32 scores are modelled as
`Rat`: the score computation only divides, compares and takes maxima.
-/

namespace MeshRepo

/-! ## Constants (llmeshrepository.cpp, top of file) -/

def MAX_MESH_VERSION : Int := 999

/-! ## Mesh header model

An `LLSD` mesh header as used by the repository: an integer `version`,
an optional `404` marker, and one `{offset, size}` block per LOD name
in `header_lod[] = { lowest_lod, low_lod, medium_lod, high_lod }`.
Absent LLSD keys read as zero via `asInteger()`, which the blank block
default reproduces. -/

structure LodBlock where
  offset : Int
  size : Int
deriving DecidableEq, Repr

structure MeshHeader where
  version : Int
  has404 : Bool
  lowestLod : LodBlock
  lowLod : LodBlock
  mediumLod : LodBlock
  highLod : LodBlock
deriving DecidableEq, Repr

/-- `header[header_lod[i]]` for `i = 0..3`. -/
def MeshHeader.lodBlock (h : MeshHeader) : Nat → LodBlock
  | 0 => h.lowestLod
  | 1 => h.lowLod
  | 2 => h.mediumLod
  | 3 => h.highLod
  | _ => ⟨0, 0⟩

/-- `header["404"] = 1`. -/
def MeshHeader.set404 (h : MeshHeader) : MeshHeader :=
  { h with has404 := true }

/-- Header value produced by `operator[]` on a missing map entry. -/
def blankHeader : MeshHeader :=
  ⟨0, false, ⟨0, 0⟩, ⟨0, 0⟩, ⟨0, 0⟩, ⟨0, 0⟩⟩

/-- Header stored by `headerReceived` for a zero length response:
`header["404"] = 1` and nothing else. -/
def notFoundHeader : MeshHeader :=
  ⟨0, true, ⟨0, 0⟩, ⟨0, 0⟩, ⟨0, 0⟩, ⟨0, 0⟩⟩

def llclamp (x lo hi : Int) : Int :=
  if x < lo then lo else if x > hi then hi else x

/-- The loop `for (S32 i = lod-1; i >= 0; --i)` of `getActualMeshLOD`:
first index strictly below the argument whose block size is positive,
scanning downward.  `searchLower h lod` inspects `lod-1, …, 0`. -/
def searchLower (h : MeshHeader) : Nat → Option Nat
  | 0 => none
  | n + 1 => if (h.lodBlock n).size > 0 then some n else searchLower h n

/-- The loop `for (S32 i = lod+1; i < 4; ++i)` of `getActualMeshLOD`:
first index in `i, …, 3` whose block size is positive, scanning
upward. -/
def searchHigher (h : MeshHeader) (i : Nat) : Option Nat :=
  if h4 : 4 ≤ i then none
  else if (h.lodBlock i).size > 0 then some i
  else searchHigher h (i + 1)
termination_by 4 - i
decreasing_by omega

/-- `LLMeshRepository::getActualMeshLOD(LLSD& header, S32 lod)`
(llmeshrepository.cpp:2232).  The header is passed by reference and
mutated in the final branch, so the embedding returns the updated
header together with the chosen LOD. -/
def getActualMeshLOD (h : MeshHeader) (lod : Int) : MeshHeader × Int :=
  let lod := llclamp lod 0 3
  if h.has404 ∨ h.version > MAX_MESH_VERSION then (h, -1)
  else
    let l := lod.toNat
    if (h.lodBlock l).size > 0 then (h, (l : Int))
    else
      match searchLower h l with
      | some i => (h, (i : Int))
      | none =>
        match searchHigher h (l + 1) with
        | some i => (h, (i : Int))
        | none => (h.set404, -1)

/-! ### Lemmas about the two search loops -/

theorem searchLower_eq_some (h : MeshHeader) :
    ∀ n i, searchLower h n = some i ↔
      i < n ∧ (h.lodBlock i).size > 0 ∧
        ∀ j, i < j → j < n → (h.lodBlock j).size ≤ 0 := by
  intro n
  induction n with
  | zero => intro i; simp [searchLower]
  | succ m ih =>
    intro i
    simp only [searchLower]
    by_cases hm : (h.lodBlock m).size > 0
    · simp only [if_pos hm]
      constructor
      · rintro ⟨rfl⟩
        exact ⟨Nat.lt_succ_self m, hm, fun j h1 h2 => by omega⟩
      · rintro ⟨hi, hpos, hmax⟩
        rcases Nat.lt_succ_iff_lt_or_eq.mp hi with hlt | rfl
        · exact absurd hm (not_lt.mpr (hmax m hlt (Nat.lt_succ_self m)))
        · rfl
    · simp only [if_neg hm, ih]
      constructor
      · rintro ⟨hi, hpos, hmax⟩
        refine ⟨by omega, hpos, fun j h1 h2 => ?_⟩
        rcases Nat.lt_succ_iff_lt_or_eq.mp h2 with hlt | rfl
        · exact hmax j h1 hlt
        · exact not_lt.mp hm
      · rintro ⟨hi, hpos, hmax⟩
        have : i ≠ m := by rintro rfl; exact hm hpos
        exact ⟨by omega, hpos, fun j h1 h2 => hmax j h1 (by omega)⟩

theorem searchLower_eq_none (h : MeshHeader) :
    ∀ n, searchLower h n = none ↔ ∀ j, j < n → (h.lodBlock j).size ≤ 0 := by
  intro n
  induction n with
  | zero => simp [searchLower]
  | succ m ih =>
    simp only [searchLower]
    by_cases hm : (h.lodBlock m).size > 0
    · simp only [if_pos hm]
      constructor
      · intro hcon; exact absurd hcon (by simp)
      · intro hall; exact absurd hm (not_lt.mpr (hall m (Nat.lt_succ_self m)))
    · simp only [if_neg hm, ih]
      constructor
      · intro hall j hj
        rcases Nat.lt_succ_iff_lt_or_eq.mp hj with hlt | rfl
        · exact hall j hlt
        · exact not_lt.mp hm
      · intro hall j hj; exact hall j (by omega)

theorem searchHigher_eq_some (h : MeshHeader) (i j : Nat) :
    searchHigher h i = some j ↔
      i ≤ j ∧ j < 4 ∧ (h.lodBlock j).size > 0 ∧
        ∀ k, i ≤ k → k < j → (h.lodBlock k).size ≤ 0 := by
  suffices key : ∀ n i, 4 - i ≤ n → (searchHigher h i = some j ↔
      i ≤ j ∧ j < 4 ∧ (h.lodBlock j).size > 0 ∧
        ∀ k, i ≤ k → k < j → (h.lodBlock k).size ≤ 0) by
    exact key 4 i (by omega)
  intro n
  induction n with
  | zero =>
    intro i hn
    rw [searchHigher]
    have h4 : 4 ≤ i := by omega
    simp only [dif_pos h4]
    constructor
    · intro hcon; exact absurd hcon (by simp)
    · rintro ⟨h1, h2, _⟩; omega
  | succ m ih =>
    intro i hn
    rw [searchHigher]
    by_cases h4 : 4 ≤ i
    · simp only [dif_pos h4]
      constructor
      · intro hcon; exact absurd hcon (by simp)
      · rintro ⟨h1, h2, _⟩; omega
    · simp only [dif_neg h4]
      by_cases hpos : (h.lodBlock i).size > 0
      · simp only [if_pos hpos]
        constructor
        · rintro ⟨rfl⟩
          exact ⟨le_refl _, by omega, hpos, fun k h1 h2 => by omega⟩
        · rintro ⟨h1, h2, h3, hmin⟩
          rcases Nat.lt_or_ge i j with hlt | hge
          · exact absurd hpos (not_lt.mpr (hmin i (le_refl i) hlt))
          · have : i = j := le_antisymm h1 hge
            simp [this]
      · simp only [if_neg hpos]
        rw [ih (i + 1) (by omega)]
        constructor
        · rintro ⟨h1, h2, h3, hmin⟩
          exact ⟨by omega, h2, h3, fun k hk1 hk2 => by
            rcases Nat.lt_or_ge k (i + 1) with hlt | hge
            · have : k = i := by omega
              subst this; exact not_lt.mp hpos
            · exact hmin k hge hk2⟩
        · rintro ⟨h1, h2, h3, hmin⟩
          have : i ≠ j := by rintro rfl; exact hpos h3
          exact ⟨by omega, h2, h3, fun k hk1 hk2 => hmin k (by omega) hk2⟩

theorem searchHigher_eq_none (h : MeshHeader) (i : Nat) :
    searchHigher h i = none ↔
      ∀ j, i ≤ j → j < 4 → (h.lodBlock j).size ≤ 0 := by
  suffices key : ∀ n i, 4 - i ≤ n → (searchHigher h i = none ↔
      ∀ j, i ≤ j → j < 4 → (h.lodBlock j).size ≤ 0) by
    exact key 4 i (by omega)
  intro n
  induction n with
  | zero =>
    intro i hn
    rw [searchHigher]
    have h4 : 4 ≤ i := by omega
    simp only [dif_pos h4]
    constructor
    · intro _ j h1 h2; omega
    · intro _; trivial
  | succ m ih =>
    intro i hn
    rw [searchHigher]
    by_cases h4 : 4 ≤ i
    · simp only [dif_pos h4]
      constructor
      · intro _ j h1 h2; omega
      · intro _; trivial
    · simp only [dif_neg h4]
      by_cases hpos : (h.lodBlock i).size > 0
      · simp only [if_pos hpos]
        constructor
        · intro hcon; exact absurd hcon (by simp)
        · intro hall; exact absurd hpos (not_lt.mpr (hall i (le_refl i) (by omega)))
      · simp only [if_neg hpos]
        rw [ih (i + 1) (by omega)]
        constructor
        · intro hall j h1 h2
          rcases Nat.lt_or_ge j (i + 1) with hlt | hge
          · have : j = i := by omega
            subst this; exact not_lt.mp hpos
          · exact hall j hge h2
        · intro hall j h1 h2; exact hall j (by omega) h2

theorem llclamp_eq_self {x lo hi : Int} (h1 : lo ≤ x) (h2 : x ≤ hi) :
    llclamp x lo hi = x := by
  unfold llclamp; split_ifs <;> omega

theorem llclamp_mem (x : Int) : 0 ≤ llclamp x 0 3 ∧ llclamp x 0 3 ≤ 3 := by
  unfold llclamp; split_ifs <;> omega

/-- The full behaviour of the fallback search for an in-range request:
unavailable on the 404 marker or an oversized version; the requested
LOD when its block size is positive; otherwise the nearest lower LOD
with a positive block size; otherwise the nearest higher one; and the
result never names a LOD whose block size is not positive. -/
def LodFallbackSpec (h : MeshHeader) (lod : Int) : Prop :=
  ((h.has404 = true ∨ MAX_MESH_VERSION < h.version) →
    (getActualMeshLOD h lod).2 = -1) ∧
  (h.has404 = false → h.version ≤ MAX_MESH_VERSION →
    ((h.lodBlock lod.toNat).size > 0 → (getActualMeshLOD h lod).2 = lod) ∧
    (∀ i : Nat, (h.lodBlock lod.toNat).size ≤ 0 → i < lod.toNat →
      (h.lodBlock i).size > 0 →
      (∀ j, i < j → j < lod.toNat → (h.lodBlock j).size ≤ 0) →
      (getActualMeshLOD h lod).2 = (i : Int)) ∧
    (∀ i : Nat, (∀ j, j ≤ lod.toNat → (h.lodBlock j).size ≤ 0) →
      lod.toNat < i → i < 4 → (h.lodBlock i).size > 0 →
      (∀ j, lod.toNat < j → j < i → (h.lodBlock j).size ≤ 0) →
      (getActualMeshLOD h lod).2 = (i : Int))) ∧
  (∀ i : Nat, i < 4 → (getActualMeshLOD h lod).2 = (i : Int) →
    (h.lodBlock i).size > 0)

/-- C1: `LLMeshRepository::getActualMeshLOD` implements the documented
fallback: requested LOD when available, else nearest lower available,
else nearest higher available, never a zero size block, and the
unavailable result (-1) under the 404 marker or an unsupported
version. -/
theorem c1_getActualMeshLOD_fallback (h : MeshHeader) (lod : Int)
    (hlo : 0 ≤ lod) (hhi : lod ≤ 3) : LodFallbackSpec h lod := by
  have hcl : llclamp lod 0 3 = lod := llclamp_eq_self hlo hhi
  have hcast : ((lod.toNat : Int)) = lod := Int.toNat_of_nonneg hlo
  have hlt4 : lod.toNat < 4 := by omega
  unfold LodFallbackSpec getActualMeshLOD
  rw [hcl]
  refine ⟨?_, ?_, ?_⟩
  · intro hgate
    have : (h.has404 ∨ h.version > MAX_MESH_VERSION) := by
      rcases hgate with hg | hg
      · exact Or.inl (by simp [hg])
      · exact Or.inr hg
    simp [this]
  · intro h404 hver
    have hng : ¬(h.has404 ∨ h.version > MAX_MESH_VERSION) := by
      simp [h404]; omega
    refine ⟨?_, ?_, ?_⟩
    · intro hsz
      simp [hng, hsz, hcast]
    · intro i hsz hil hipos hmax
      have hsl : searchLower h lod.toNat = some i :=
        (searchLower_eq_some h lod.toNat i).mpr ⟨hil, hipos, hmax⟩
      simp [hng, not_lt.mpr hsz, hsl]
    · intro i hall hli hi4 hipos hmin
      have hsz : ¬ (h.lodBlock lod.toNat).size > 0 :=
        not_lt.mpr (hall lod.toNat (le_refl _))
      have hsl : searchLower h lod.toNat = none :=
        (searchLower_eq_none h lod.toNat).mpr (fun j hj => hall j (by omega))
      have hsh : searchHigher h (lod.toNat + 1) = some i :=
        (searchHigher_eq_some h (lod.toNat + 1) i).mpr
          ⟨by omega, hi4, hipos, fun k hk1 hk2 => hmin k (by omega) hk2⟩
      simp [hng, hsz, hsl, hsh]
  · intro i hi4 hri
    by_cases hgate : h.has404 ∨ h.version > MAX_MESH_VERSION
    · simp only [if_pos hgate] at hri
      omega
    · simp only [if_neg hgate] at hri
      by_cases hsz : (h.lodBlock lod.toNat).size > 0
      · simp only [if_pos hsz] at hri
        have : lod.toNat = i := by omega
        exact this ▸ hsz
      · simp only [if_neg hsz] at hri
        rcases hsl : searchLower h lod.toNat with _ | k
        · rcases hsh : searchHigher h (lod.toNat + 1) with _ | k
          · simp [hsl, hsh] at hri
          · simp [hsl, hsh] at hri
            have hk : k = i := by omega
            have := ((searchHigher_eq_some h (lod.toNat + 1) k).mp hsh).2.2.1
            exact hk ▸ this
        · simp [hsl] at hri
          have hk : k = i := by omega
          have := ((searchLower_eq_some h lod.toNat k).mp hsl).2.1
          exact hk ▸ this

/-- Example header of Scenario A: a positive high LOD block, an empty
medium block, a positive low block. -/
def scenarioAHeader : MeshHeader :=
  ⟨1, false, ⟨0, 0⟩, ⟨256, 128⟩, ⟨0, 0⟩, ⟨512, 2048⟩⟩

theorem c1_getActualMeshLOD_fallback_witness :
    (0 : Int) ≤ 2 ∧ (2 : Int) ≤ 3 ∧ LodFallbackSpec scenarioAHeader 2 :=
  ⟨by decide, by decide,
    c1_getActualMeshLOD_fallback scenarioAHeader 2 (by decide) (by decide)⟩

/-- Outcome asserted by C9: the query on an all-empty header answers -1,
marks the header with the 404 marker, and afterwards every request on
the updated header answers -1. -/
def Query404Spec (h : MeshHeader) (lod lod2 : Int) : Prop :=
  (getActualMeshLOD h lod).2 = -1 ∧
  (getActualMeshLOD h lod).1.has404 = true ∧
  (getActualMeshLOD (getActualMeshLOD h lod).1 lod2).2 = -1

/-- C9: on a supported-version, not yet 404 header all four of whose
LOD blocks have non-positive size, `getActualMeshLOD` itself sets the
404 marker and returns -1, and every later query on the mutated header
returns -1 at every requested LOD. -/
theorem c9_getActualMeshLOD_marks_404 (h : MeshHeader) (lod lod2 : Int)
    (hver : h.version ≤ MAX_MESH_VERSION) (h404 : h.has404 = false)
    (hall : ∀ i, i < 4 → (h.lodBlock i).size ≤ 0) :
    Query404Spec h lod lod2 := by
  have hmem := llclamp_mem lod
  have hng : ¬(h.has404 ∨ h.version > MAX_MESH_VERSION) := by
    simp [h404]; omega
  have hsz : ¬ (h.lodBlock (llclamp lod 0 3).toNat).size > 0 :=
    not_lt.mpr (hall _ (by omega))
  have hsl : searchLower h (llclamp lod 0 3).toNat = none :=
    (searchLower_eq_none h _).mpr (fun j hj => hall j (by omega))
  have hsh : searchHigher h ((llclamp lod 0 3).toNat + 1) = none :=
    (searchHigher_eq_none h _).mpr (fun j h1 h2 => hall j h2)
  have hres : getActualMeshLOD h lod = (h.set404, -1) := by
    unfold getActualMeshLOD
    simp [hng, hsz, hsl, hsh]
  have h404t : (h.set404).has404 = true := rfl
  refine ⟨by rw [hres], by rw [hres]; rfl, ?_⟩
  rw [hres]
  unfold getActualMeshLOD
  simp [h404t]

theorem c9_getActualMeshLOD_marks_404_witness :
    blankHeader.version ≤ MAX_MESH_VERSION ∧ blankHeader.has404 = false ∧
      Query404Spec blankHeader 2 0 :=
  ⟨by decide, by decide,
    c9_getActualMeshLOD_marks_404 blankHeader 2 0 (by decide) (by decide)
      (by decide)⟩

/-! ## Association list maps

`std::map` / `std::unordered_map` instances of the source are embedded
as association lists with unique keys; insertion of a fresh key appends
at the end. -/

def assocFind {α β : Type} [DecidableEq α] : List (α × β) → α → Option β
  | [], _ => none
  | (k, v) :: rest, key => if k = key then some v else assocFind rest key

def assocSet {α β : Type} [DecidableEq α] : List (α × β) → α → β → List (α × β)
  | [], key, v => [(key, v)]
  | (k, w) :: rest, key, v =>
    if k = key then (k, v) :: rest else (k, w) :: assocSet rest key v

def assocErase {α β : Type} [DecidableEq α] : List (α × β) → α → List (α × β)
  | [], _ => []
  | (k, w) :: rest, key =>
    if k = key then rest else (k, w) :: assocErase rest key

theorem assocFind_assocSet_self {α β : Type} [DecidableEq α]
    (l : List (α × β)) (k : α) (v : β) :
    assocFind (assocSet l k v) k = some v := by
  induction l with
  | nil => simp [assocSet, assocFind]
  | cons hd tl ih =>
    obtain ⟨k2, w⟩ := hd
    by_cases hk : k2 = k
    · simp [assocSet, assocFind, hk]
    · simp [assocSet, assocFind, hk, ih]

theorem assocFind_assocSet_ne {α β : Type} [DecidableEq α]
    (l : List (α × β)) (k q : α) (v : β) (hne : k ≠ q) :
    assocFind (assocSet l k v) q = assocFind l q := by
  induction l with
  | nil => simp [assocSet, assocFind, hne]
  | cons hd tl ih =>
    obtain ⟨k2, w⟩ := hd
    by_cases hk : k2 = k
    · subst hk
      simp [assocSet, assocFind, hne]
    · simp only [assocSet, if_neg hk]
      by_cases hq : k2 = q
      · simp [assocFind, hq]
      · simp [assocFind, hq, ih]

theorem assocSet_assocSet {α β : Type} [DecidableEq α]
    (l : List (α × β)) (k : α) (v w : β) :
    assocSet (assocSet l k v) k w = assocSet l k w := by
  induction l with
  | nil => simp [assocSet]
  | cons hd tl ih =>
    obtain ⟨k2, u⟩ := hd
    by_cases hk : k2 = k
    · simp [assocSet, hk]
    · simp [assocSet, hk, ih]

theorem assocErase_assocSet_of_none {α β : Type} [DecidableEq α]
    (l : List (α × β)) (k : α) (v : β) (hnone : assocFind l k = none) :
    assocErase (assocSet l k v) k = l := by
  induction l with
  | nil => simp [assocSet, assocErase]
  | cons hd tl ih =>
    obtain ⟨k2, w⟩ := hd
    by_cases hk : k2 = k
    · simp [assocFind, hk] at hnone
    · simp only [assocFind, if_neg hk] at hnone
      simp [assocSet, assocErase, hk, ih hnone]

/-! ## Identifiers and request records

`LLUUID` and the shape modifier part of `LLVolumeParams` are opaque to
the claims under study; both are embedded as `Nat`.  A `VolP` pairs the
mesh asset id (`getSculptID()`) with the remaining shape parameters,
because the header maps are keyed by the id while the pending-LOD map
and the interest sets are keyed by the full `LLVolumeParams`. -/

structure VolP where
  sculptId : Nat
  shape : Nat
deriving DecidableEq, Repr

/-- `LLMeshRepoThread::LODRequest` — (params, lod, score).  The score
field is written only by the scheduler tick; requests are created with
score zero. -/
structure LODRequest where
  meshParams : VolP
  lod : Nat
  score : Rat := 0
deriving DecidableEq, Repr

/-- Number of occurrences of requests for a given (params, lod) pair in
a queue, the score being irrelevant to identity of a request. -/
def countReq (l : List LODRequest) (p : VolP) (d : Nat) : Nat :=
  (l.filter (fun r => decide (r.meshParams = p ∧ r.lod = d))).length

def countKey {α : Type} [DecidableEq α] (l : List α) (a : α) : Nat :=
  (l.filter (fun x => decide (x = a))).length

/-! ## Repo worker thread state (`LLMeshRepoThread`)

Only the request bookkeeping the claims speak about is retained:
the two header maps, the two request queues, the pending-LOD map, the
unavailable queue, and the record of issued LOD byte-range HTTP
requests (`mHttpRequestSet` restricted to LOD handlers). -/

structure RepoThreadState where
  meshHeader : List (Nat × MeshHeader)
  meshHeaderSize : List (Nat × Nat)
  headerReqQ : List VolP
  lodReqQ : List LODRequest
  pendingLOD : List (VolP × List Nat)
  unavailableQ : List LODRequest
  httpLODFetches : List LODRequest
deriving DecidableEq, Repr

def initThreadState : RepoThreadState := ⟨[], [], [], [], [], [], []⟩

/-- `LLMeshRepoThread::loadMeshLOD` (llmeshrepository.cpp:955).  With a
known header the request goes straight onto the LOD queue; otherwise it
is appended to the pending-LOD list of an already pending header
request, or a fresh header request is enqueued together with a fresh
pending-LOD entry. -/
def loadMeshLOD (s : RepoThreadState) (p : VolP) (lod : Nat) :
    RepoThreadState :=
  match assocFind s.meshHeader p.sculptId with
  | some _ => { s with lodReqQ := s.lodReqQ ++ [⟨p, lod, 0⟩] }
  | none =>
    match assocFind s.pendingLOD p with
    | some lods =>
      { s with pendingLOD := assocSet s.pendingLOD p (lods ++ [lod]) }
    | none =>
      { s with headerReqQ := s.headerReqQ ++ [p],
               pendingLOD := assocSet s.pendingLOD p [lod] }

/-- `LLMeshRepoThread::headerReceived` (llmeshrepository.cpp:1542).
The binary LLSD parse is abstracted by the `parse` argument: `some
(header, headerSize)` on a successful parse of a positive-size body,
`none` on a parse error.  A non-positive body size stores the 404
marker header with header size zero.  On success the accumulated
pending-LOD entry for the params is flushed onto the LOD queue and
erased. -/
def headerReceived (s : RepoThreadState) (p : VolP) (dataSize : Int)
    (parse : Option (MeshHeader × Nat)) : RepoThreadState × Bool :=
  let parsed : Option (MeshHeader × Nat) :=
    if dataSize > 0 then parse else some (notFoundHeader, 0)
  match parsed with
  | none => (s, false)
  | some (hdr, hsize) =>
    let s1 : RepoThreadState :=
      { s with meshHeaderSize := assocSet s.meshHeaderSize p.sculptId hsize,
               meshHeader := assocSet s.meshHeader p.sculptId hdr }
    match assocFind s1.pendingLOD p with
    | some lods =>
      ({ s1 with
          lodReqQ := s1.lodReqQ ++ lods.map (fun l => ⟨p, l, 0⟩),
          pendingLOD := assocErase s1.pendingLOD p }, true)
    | none => (s1, true)

/-- Environment of one `fetchMeshLOD` attempt: the size of the local
cache file for the mesh id, the result of the first-1KB nonzero check,
whether the cached bytes parse as a LOD, whether a capability URL is
available, and whether the HTTP request handle was obtained. -/
structure FetchEnv where
  vfsFileSize : Int
  vfsNonZero : Bool
  lodParses : Bool
  urlNonEmpty : Bool
  httpHandleValid : Bool
deriving DecidableEq, Repr

/-- `LLMeshRepoThread::fetchMeshLOD` (llmeshrepository.cpp:1447).
Returns the new state and the retval flag (false means the caller
re-enqueues the request).  A zero recorded header size falls through
the whole body and lets the request be consumed.  With a positive
header size, an unsupported version, a negative offset or a
non-positive block size push the request onto the unavailable queue;
otherwise the cache is consulted and, failing that, a byte-range HTTP
fetch is issued. -/
def fetchMeshLOD (env : FetchEnv) (s : RepoThreadState) (p : VolP)
    (lod : Nat) : RepoThreadState × Bool :=
  let headerSize : Nat := (assocFind s.meshHeaderSize p.sculptId).getD 0
  if headerSize > 0 then
    let hdr : MeshHeader := (assocFind s.meshHeader p.sculptId).getD blankHeader
    let offset : Int := (headerSize : Int) + (hdr.lodBlock lod).offset
    let size : Int := (hdr.lodBlock lod).size
    if hdr.version ≤ MAX_MESH_VERSION ∧ 0 ≤ offset ∧ 0 < size then
      if env.vfsFileSize ≥ offset + size ∧ env.vfsNonZero ∧ env.lodParses then
        (s, true)
      else if env.urlNonEmpty then
        if env.httpHandleValid then
          ({ s with httpLODFetches := s.httpLODFetches ++ [⟨p, lod, 0⟩] }, true)
        else (s, false)
      else
        ({ s with unavailableQ := s.unavailableQ ++ [⟨p, lod, 0⟩] }, true)
    else
      ({ s with unavailableQ := s.unavailableQ ++ [⟨p, lod, 0⟩] }, true)
  else (s, true)

/-! ## Request scheduler state (`LLMeshRepository`, main thread side) -/

/-- Interest sets (`mLoadingMeshes[detail]`, a `std::map` from
`LLVolumeParams` to a `std::set` of object ids) flattened to one
association list keyed by (params, detail), plus the scheduler level
pending request vector (`mPendingRequests`). -/
structure SchedState where
  loadingMeshes : List ((VolP × Nat) × List Nat)
  pendingRequests : List LODRequest
deriving DecidableEq, Repr

def initSchedState : SchedState := ⟨[], []⟩

/-- `std::set` insertion on an id list kept without duplicates. -/
def setInsert (l : List Nat) (x : Nat) : List Nat :=
  if x ∈ l then l else l ++ [x]

/-- The loop `for (S32 i = detail-1; i >= 0; --i)` of
`LLMeshRepository::loadMesh`: next lower LOD already resident. -/
def searchLoadedLower (loaded : Nat → Bool) : Nat → Option Nat
  | 0 => none
  | n + 1 => if loaded n then some n else searchLoadedLower loaded n

/-- The loop `for (S32 i = detail+1; i < 4; ++i)` of
`LLMeshRepository::loadMesh`: next higher LOD already resident. -/
def searchLoadedHigher (loaded : Nat → Bool) (i : Nat) : Option Nat :=
  if h4 : 4 ≤ i then none
  else if loaded i then some i
  else searchLoadedHigher loaded (i + 1)
termination_by 4 - i
decreasing_by omega

/-- `LLMeshRepository::loadMesh` (llmeshrepository.cpp:2746).  `loaded
i` abstracts `group->refLOD(i)` answering a volume whose mesh asset is
loaded with faces; `hasGroup` abstracts `vobj->getVolume()` and the
volume manager group both existing.  Out-of-range detail returns
immediately without touching any request state.  Otherwise the object
id joins the interest set for (params, detail), a scheduler pending
request being created only on first interest, and the returned value
is the best LOD to display meanwhile: `last_lod` if resident, else the
next lower resident LOD, else the next higher, else `detail`. -/
def loadMesh (s : SchedState) (vobjId : Nat) (p : VolP)
    (detail lastLod : Int) (loaded : Nat → Bool) (hasGroup : Bool) :
    SchedState × Int :=
  if detail < 0 ∨ detail > 4 then (s, detail)
  else
    let d := detail.toNat
    let s1 :=
      match assocFind s.loadingMeshes (p, d) with
      | some ids =>
        { s with loadingMeshes :=
            assocSet s.loadingMeshes (p, d) (setInsert ids vobjId) }
      | none =>
        { loadingMeshes := assocSet s.loadingMeshes (p, d) [vobjId],
          pendingRequests := s.pendingRequests ++ [⟨p, d, 0⟩] }
    let ret : Int :=
      if hasGroup then
        if 0 ≤ lastLod ∧ loaded lastLod.toNat then lastLod
        else
          match searchLoadedLower loaded d with
          | some i => (i : Int)
          | none =>
            match searchLoadedHigher loaded (d + 1) with
            | some i => (i : Int)
            | none => detail
      else detail
    (s1, ret)

/-- C10: a detail level outside 0..4 is returned unchanged and the
request state is untouched: no interest set entry, no pending request,
hence no fetch can ever arise from the call. -/
theorem c10_loadMesh_out_of_range (s : SchedState) (vobjId : Nat)
    (p : VolP) (detail lastLod : Int) (loaded : Nat → Bool)
    (hasGroup : Bool) (hout : detail < 0 ∨ 4 < detail) :
    loadMesh s vobjId p detail lastLod loaded hasGroup = (s, detail) := by
  unfold loadMesh
  simp [hout]

theorem c10_loadMesh_out_of_range_witness :
    ((5 : Int) < 0 ∨ (4 : Int) < 5) ∧
      loadMesh initSchedState 7 ⟨1, 0⟩ 5 (-1) (fun _ => false) true =
        (initSchedState, 5) :=
  ⟨by decide,
    c10_loadMesh_out_of_range initSchedState 7 ⟨1, 0⟩ 5 (-1)
      (fun _ => false) true (by decide)⟩

/-! ## Coalescing of LOD requests before the header is known (C4) -/

theorem assocSet_self_of_find {α β : Type} [DecidableEq α]
    (l : List (α × β)) (k : α) (v : β) (h : assocFind l k = some v) :
    assocSet l k v = l := by
  induction l with
  | nil => simp [assocFind] at h
  | cons hd tl ih =>
    obtain ⟨k2, w⟩ := hd
    by_cases hk : k2 = k
    · subst hk
      have h2 : w = v := by simpa [assocFind] using h
      simp [assocSet, h2]
    · simp only [assocFind, if_neg hk] at h
      simp [assocSet, hk, ih h]

theorem foldl_loadMeshLOD_pending (p : VolP) :
    ∀ (rest : List Nat) (s : RepoThreadState) (acc : List Nat),
      assocFind s.meshHeader p.sculptId = none →
      assocFind s.pendingLOD p = some acc →
      rest.foldl (fun st l => loadMeshLOD st p l) s =
        { s with pendingLOD := assocSet s.pendingLOD p (acc ++ rest) } := by
  intro rest
  induction rest with
  | nil =>
    intro s acc hh hp
    simp only [List.foldl_nil, List.append_nil]
    rw [assocSet_self_of_find _ _ _ hp]
  | cons l rest ih =>
    intro s acc hh hp
    have hstep : loadMeshLOD s p l =
        { s with pendingLOD := assocSet s.pendingLOD p (acc ++ [l]) } := by
      unfold loadMeshLOD
      rw [hh, hp]
    rw [List.foldl_cons, hstep]
    have hh2 : assocFind
        ({ s with pendingLOD := assocSet s.pendingLOD p (acc ++ [l]) } :
          RepoThreadState).meshHeader p.sculptId = none := hh
    have hp2 : assocFind
        ({ s with pendingLOD := assocSet s.pendingLOD p (acc ++ [l]) } :
          RepoThreadState).pendingLOD p = some (acc ++ [l]) :=
      assocFind_assocSet_self _ _ _
    rw [ih _ _ hh2 hp2]
    simp [assocSet_assocSet]

/-- Outcome asserted by C4: exactly one header request is enqueued by
the N early LOD requests, the LOD levels pile up in the pending-LOD
entry, and a successful header arrival converts all of them to LOD
queue entries and erases the pending-LOD entry. -/
def CoalesceSpec (s : RepoThreadState) (p : VolP) (lods : List Nat)
    (dataSize : Int) (hdr : MeshHeader) (hsize : Nat) : Prop :=
  (lods.foldl (fun st l => loadMeshLOD st p l) s).headerReqQ =
      s.headerReqQ ++ [p] ∧
  assocFind (lods.foldl (fun st l => loadMeshLOD st p l) s).pendingLOD p =
      some lods ∧
  (lods.foldl (fun st l => loadMeshLOD st p l) s).lodReqQ = s.lodReqQ ∧
  (headerReceived (lods.foldl (fun st l => loadMeshLOD st p l) s) p
      dataSize (some (hdr, hsize))).2 = true ∧
  (headerReceived (lods.foldl (fun st l => loadMeshLOD st p l) s) p
      dataSize (some (hdr, hsize))).1.lodReqQ =
    s.lodReqQ ++ lods.map (fun l => ⟨p, l, 0⟩) ∧
  assocFind (headerReceived (lods.foldl (fun st l => loadMeshLOD st p l) s)
      p dataSize (some (hdr, hsize))).1.pendingLOD p = none

/-- C4: N LOD requests for the same VolumeParams arriving before its
header is known enqueue exactly one HeaderRequest and accumulate their
LOD levels in the pending-LOD entry; a successful header arrival turns
every accumulated level into a LODRequest on the LOD queue and erases
the pending-LOD entry. -/
theorem c4_coalescing (s : RepoThreadState) (p : VolP) (l0 : Nat)
    (rest : List Nat) (dataSize : Int) (hdr : MeshHeader) (hsize : Nat)
    (hheader : assocFind s.meshHeader p.sculptId = none)
    (hpend : assocFind s.pendingLOD p = none)
    (hdata : 0 < dataSize) :
    CoalesceSpec s p (l0 :: rest) dataSize hdr hsize := by
  have hstep : loadMeshLOD s p l0 =
      { s with headerReqQ := s.headerReqQ ++ [p],
               pendingLOD := assocSet s.pendingLOD p [l0] } := by
    unfold loadMeshLOD
    rw [hheader, hpend]
  have hfold : (l0 :: rest).foldl (fun st l => loadMeshLOD st p l) s =
      { s with headerReqQ := s.headerReqQ ++ [p],
               pendingLOD := assocSet s.pendingLOD p (l0 :: rest) } := by
    rw [List.foldl_cons, hstep]
    have hh2 : assocFind
        ({ s with headerReqQ := s.headerReqQ ++ [p],
                  pendingLOD := assocSet s.pendingLOD p [l0] } :
          RepoThreadState).meshHeader p.sculptId = none := hheader
    have hp2 : assocFind
        ({ s with headerReqQ := s.headerReqQ ++ [p],
                  pendingLOD := assocSet s.pendingLOD p [l0] } :
          RepoThreadState).pendingLOD p = some [l0] :=
      assocFind_assocSet_self _ _ _
    rw [foldl_loadMeshLOD_pending p rest _ [l0] hh2 hp2]
    simp [assocSet_assocSet]
  have hfind : assocFind (assocSet s.pendingLOD p (l0 :: rest)) p =
      some (l0 :: rest) := assocFind_assocSet_self _ _ _
  have hrecv : headerReceived
      ((l0 :: rest).foldl (fun st l => loadMeshLOD st p l) s) p dataSize
      (some (hdr, hsize)) =
      ({ meshHeader := assocSet s.meshHeader p.sculptId hdr,
         meshHeaderSize := assocSet s.meshHeaderSize p.sculptId hsize,
         headerReqQ := s.headerReqQ ++ [p],
         lodReqQ := s.lodReqQ ++ (l0 :: rest).map (fun l => ⟨p, l, 0⟩),
         pendingLOD := s.pendingLOD,
         unavailableQ := s.unavailableQ,
         httpLODFetches := s.httpLODFetches }, true) := by
    rw [hfold]
    unfold headerReceived
    simp only [if_pos hdata]
    simp only [hfind]
    rw [assocErase_assocSet_of_none _ _ _ hpend]
  unfold CoalesceSpec
  rw [hrecv, hfold]
  exact ⟨rfl, hfind, rfl, rfl, rfl, hpend⟩

theorem c4_coalescing_witness :
    assocFind initThreadState.meshHeader 3 = none ∧
    assocFind initThreadState.pendingLOD ⟨3, 1⟩ = none ∧
    (0 : Int) < 100 ∧
    CoalesceSpec initThreadState ⟨3, 1⟩ [2, 0, 3] 100 scenarioAHeader 97 :=
  ⟨by decide, by decide, by decide,
    c4_coalescing initThreadState ⟨3, 1⟩ 2 [0, 3] 100 scenarioAHeader 97
      (by decide) (by decide) (by decide)⟩

/-! ## Version gating and the zero length header (C2) -/

/-- Environment in which everything the fetch path could want is
available: a huge cache file, a nonzero first block, a parsable
payload, a capability URL and a valid HTTP handle.  Used to show that
a request is dropped by the request state itself, not by a missing
resource. -/
def richEnv : FetchEnv := ⟨1000000, true, true, true, true⟩

/-- C2, counterexample to the claim as stated.  After a zero length
header response, `headerReceived` records the 404 marker header with
header size zero and succeeds (so the header fetch is not retried);
but a LOD request then processed by `fetchMeshLOD` falls into the
`header_size == 0` branch: it is consumed with retval true while the
unavailable queue stays empty and no fetch is issued — the request is
dropped silently instead of resolving as unavailable. -/
theorem c2_zero_length_header_drops_lod_silently :
    (headerReceived initThreadState ⟨5, 0⟩ 0 none).2 = true ∧
    assocFind (headerReceived initThreadState ⟨5, 0⟩ 0 none).1.meshHeader 5 =
      some notFoundHeader ∧
    assocFind (headerReceived initThreadState ⟨5, 0⟩ 0 none).1.meshHeaderSize 5 =
      some 0 ∧
    fetchMeshLOD richEnv (headerReceived initThreadState ⟨5, 0⟩ 0 none).1
        ⟨5, 0⟩ 2 =
      ((headerReceived initThreadState ⟨5, 0⟩ 0 none).1, true) ∧
    (fetchMeshLOD richEnv (headerReceived initThreadState ⟨5, 0⟩ 0 none).1
        ⟨5, 0⟩ 2).1.unavailableQ = [] ∧
    (fetchMeshLOD richEnv (headerReceived initThreadState ⟨5, 0⟩ 0 none).1
        ⟨5, 0⟩ 2).1.httpLODFetches = [] := by
  refine ⟨rfl, rfl, rfl, rfl, rfl, rfl⟩

/-- A zero length header response stores the 404 marker header with
header size zero and flushes any pending LOD entry. -/
theorem headerReceived_zero (s0 : RepoThreadState) (p : VolP)
    (parse : Option (MeshHeader × Nat)) :
    headerReceived s0 p 0 parse =
      (match assocFind s0.pendingLOD p with
       | some lods =>
         ({ s0 with
            meshHeaderSize := assocSet s0.meshHeaderSize p.sculptId 0,
            meshHeader := assocSet s0.meshHeader p.sculptId notFoundHeader,
            lodReqQ := s0.lodReqQ ++ lods.map (fun l => ⟨p, l, 0⟩),
            pendingLOD := assocErase s0.pendingLOD p }, true)
       | none =>
         ({ s0 with
            meshHeaderSize := assocSet s0.meshHeaderSize p.sculptId 0,
            meshHeader := assocSet s0.meshHeader p.sculptId notFoundHeader },
          true)) := by
  unfold headerReceived
  rw [if_neg (by decide : ¬((0 : Int) > 0))]

/-- With a recorded header size of zero, `fetchMeshLOD` consumes the
request without any effect. -/
theorem fetchMeshLOD_zero_headerSize (env : FetchEnv)
    (s : RepoThreadState) (p : VolP) (lod : Nat)
    (h : (assocFind s.meshHeaderSize p.sculptId).getD 0 = 0) :
    fetchMeshLOD env s p lod = (s, true) := by
  unfold fetchMeshLOD
  rw [h]
  simp

/-- Amended C2 outcome: with a positive recorded header size and a
header version above the supported maximum, every LOD fetch resolves
as unavailable with no byte-range HTTP request; with the header known,
`loadMeshLOD` never enqueues another header request; after a zero
length header response the 404 marker header is stored with size zero,
the call reports success (no retry), and later LOD fetches for the
mesh are consumed silently — neither fetched nor reported
unavailable. -/
def VersionGateSpec (s : RepoThreadState) (p : VolP) (env : FetchEnv)
    (lod : Nat) : Prop :=
  fetchMeshLOD env s p lod =
    ({ s with unavailableQ := s.unavailableQ ++ [⟨p, lod, 0⟩] }, true) ∧
  (∀ l, (loadMeshLOD s p l).headerReqQ = s.headerReqQ) ∧
  (∀ (s0 : RepoThreadState) (parse : Option (MeshHeader × Nat))
      (env2 : FetchEnv) (lod2 : Nat),
    (headerReceived s0 p 0 parse).2 = true ∧
    assocFind (headerReceived s0 p 0 parse).1.meshHeader p.sculptId =
      some notFoundHeader ∧
    assocFind (headerReceived s0 p 0 parse).1.meshHeaderSize p.sculptId =
      some 0 ∧
    fetchMeshLOD env2 (headerReceived s0 p 0 parse).1 p lod2 =
      ((headerReceived s0 p 0 parse).1, true))

/-- C2, amended.  The version gate resolves every LOD request as
unavailable without a fetch and without a header retry; the zero
length header is likewise permanent and fetch-free, but its queued LOD
requests are consumed silently rather than notified unavailable. -/
theorem c2_version_gate_amended (s : RepoThreadState) (p : VolP)
    (env : FetchEnv) (lod : Nat) (hdr : MeshHeader) (hsize : Nat)
    (hfound : assocFind s.meshHeader p.sculptId = some hdr)
    (hsfound : assocFind s.meshHeaderSize p.sculptId = some hsize)
    (hpos : 0 < hsize)
    (hver : MAX_MESH_VERSION < hdr.version) :
    VersionGateSpec s p env lod := by
  refine ⟨?_, ?_, ?_⟩
  · unfold fetchMeshLOD
    rw [hsfound, hfound]
    simp only [Option.getD_some]
    rw [if_pos hpos]
    have hng : ¬(hdr.version ≤ MAX_MESH_VERSION ∧
        0 ≤ (hsize : Int) + (hdr.lodBlock lod).offset ∧
        0 < (hdr.lodBlock lod).size) := by
      intro hc
      exact absurd hc.1 (not_le.mpr hver)
    rw [if_neg hng]
  · intro l
    unfold loadMeshLOD
    rw [hfound]
  · intro s0 parse env2 lod2
    rw [headerReceived_zero]
    rcases hp : assocFind s0.pendingLOD p with _ | lods
    · simp only [hp]
      refine ⟨by trivial, assocFind_assocSet_self _ _ _,
        assocFind_assocSet_self _ _ _, ?_⟩
      exact fetchMeshLOD_zero_headerSize env2 _ p lod2
        (by simp [assocFind_assocSet_self])
    · simp only [hp]
      refine ⟨by trivial, assocFind_assocSet_self _ _ _,
        assocFind_assocSet_self _ _ _, ?_⟩
      exact fetchMeshLOD_zero_headerSize env2 _ p lod2
        (by simp [assocFind_assocSet_self])

/-- Header with an unsupported format version. -/
def futureHeader : MeshHeader :=
  ⟨1000, false, ⟨0, 0⟩, ⟨0, 0⟩, ⟨0, 0⟩, ⟨0, 1024⟩⟩

/-- Thread state holding a cached unsupported-version header. -/
def futureState : RepoThreadState :=
  { initThreadState with
      meshHeader := [(5, futureHeader)],
      meshHeaderSize := [(5, 100)] }

theorem c2_version_gate_amended_witness :
    assocFind futureState.meshHeader 5 = some futureHeader ∧
    assocFind futureState.meshHeaderSize 5 = some 100 ∧
    0 < 100 ∧ MAX_MESH_VERSION < futureHeader.version ∧
    VersionGateSpec futureState ⟨5, 0⟩ richEnv 3 :=
  ⟨by decide, by decide, by decide, by decide,
    c2_version_gate_amended futureState ⟨5, 0⟩ richEnv 3 futureHeader 100
      (by decide) (by decide) (by decide) (by decide)⟩

/-! ## Failure classification and the LOD failure handler (C5) -/

/-- `LLCore::HttpStatus` values distinguished by `is_retryable`
(llmeshrepository.cpp:4168): a successful status, an HTTP error status
with its code, the named libcurl transport errors tested by the
function, the LLCORE invalid content range error, and any other
(non-retryable) error. -/
inductive HttpStatus where
  | success
  | httpError (code : Nat)
  | cantConnect
  | cantResProxy
  | cantResHost
  | sendError
  | recvError
  | uploadFailed
  | opTimedout
  | postError
  | partialFile
  | invContentRange
  | otherError
deriving DecidableEq, Repr

/-- `is_retryable(LLCore::HttpStatus status)`
(llmeshrepository.cpp:4168): requires a failed status, and then an
HTTP status in 499..599 or one of the listed transport errors. -/
def is_retryable (status : HttpStatus) : Bool :=
  match status with
  | .success => false
  | .httpError code => 499 ≤ code ∧ code ≤ 599
  | .cantConnect => true
  | .cantResProxy => true
  | .cantResHost => true
  | .sendError => true
  | .recvError => true
  | .uploadFailed => true
  | .opTimedout => true
  | .postError => true
  | .partialFile => true
  | .invContentRange => true
  | .otherError => false

/-- `LLMeshLODHandler::processFailure` (llmeshrepository.cpp:2462): a
retryable status re-enqueues the identical request through
`loadMeshLOD`; a non-retryable status only logs — the state is
untouched, and in particular nothing is pushed onto the unavailable
queue (the source carries `*TODO: Mark mesh unavailable` there). -/
def lodProcessFailure (status : HttpStatus) (s : RepoThreadState)
    (p : VolP) (lod : Nat) : RepoThreadState :=
  if is_retryable status then loadMeshLOD s p lod else s

/-- Thread state in which the header for mesh id 5 is cached, as it
always is when a LOD byte-range fetch has been issued. -/
def c5State : RepoThreadState :=
  { initThreadState with
      meshHeader := [(5, scenarioAHeader)],
      meshHeaderSize := [(5, 100)] }

/-- C5: evaluation of the failure handler at both status classes.  A
503 (retryable) puts the identical request back on the LOD queue and
emits nothing else; a 404 (non-retryable) leaves the state completely
unchanged — the request is discarded, and contrary to the claim no
unavailability is reported (the unavailable queue stays empty; the
source marks the omission with a TODO). -/
theorem c5_lod_failure_handling :
    is_retryable (HttpStatus.httpError 503) = true ∧
    lodProcessFailure (HttpStatus.httpError 503) c5State ⟨5, 0⟩ 2 =
      { c5State with lodReqQ := [⟨⟨5, 0⟩, 2, 0⟩] } ∧
    (lodProcessFailure (HttpStatus.httpError 503) c5State ⟨5, 0⟩ 2).unavailableQ
      = [] ∧
    is_retryable (HttpStatus.httpError 404) = false ∧
    lodProcessFailure (HttpStatus.httpError 404) c5State ⟨5, 0⟩ 2 = c5State ∧
    c5State.unavailableQ = [] := by
  refine ⟨by decide, by decide, by decide, by decide, by decide, by decide⟩

/-! ## Decomposition records and their merging (C7) -/

/-- `LLModel::Decomposition` as the claims see it: the convex sub-hull
list (from the `physics_convex` block), the base hull, and the
triangle physics mesh (from the `physics_mesh` block).  The geometric
payloads are opaque here. -/
structure Decomposition where
  meshId : Nat
  hull : List Nat
  baseHull : List Nat
  physicsMesh : List Nat
deriving DecidableEq, Repr

/-- Modelled from the spec: `LLModel::Decomposition::merge` lives in
`llmodel.cpp`, which is not among the sources here.  Per the spec,
partial fetches merge into one record — a later arrival fills the
parts it carries and must not erase parts it does not carry. -/
def Decomposition.merge (dst src : Decomposition) : Decomposition :=
  { meshId := dst.meshId,
    hull := if src.hull.isEmpty then dst.hull else src.hull,
    baseHull := if src.baseHull.isEmpty then dst.baseHull else src.baseHull,
    physicsMesh :=
      if src.physicsMesh.isEmpty then dst.physicsMesh else src.physicsMesh }

/-- The decomposition bookkeeping of `LLMeshRepository`:
`mDecompositionMap` and `mLoadingDecompositions`. -/
structure DecompSched where
  decompositionMap : List (Nat × Decomposition)
  loadingDecompositions : List Nat
deriving DecidableEq, Repr

/-- `LLMeshRepository::notifyDecompositionReceived`
(llmeshrepository.cpp:3067): a first arrival is inserted as-is; a
later arrival is merged into the existing record; either way the mesh
id leaves the loading set. -/
def notifyDecompositionReceived (s : DecompSched) (d : Decomposition) :
    DecompSched :=
  match assocFind s.decompositionMap d.meshId with
  | none =>
    { decompositionMap := assocSet s.decompositionMap d.meshId d,
      loadingDecompositions := s.loadingDecompositions.erase d.meshId }
  | some existing =>
    { decompositionMap :=
        assocSet s.decompositionMap d.meshId (existing.merge d),
      loadingDecompositions := s.loadingDecompositions.erase d.meshId }

/-- Outcome asserted by C7: a lone first arrival is stored as-is, and
the two partial records, arriving in either order, leave a single
record carrying the hulls of one and the physics mesh of the other. -/
def DecompMergeSpec (s : DecompSched) (d1 d2 : Decomposition) : Prop :=
  assocFind (notifyDecompositionReceived s d1).decompositionMap d1.meshId =
    some d1 ∧
  assocFind (notifyDecompositionReceived
      (notifyDecompositionReceived s d1) d2).decompositionMap d1.meshId =
    some ⟨d1.meshId, d1.hull, d1.baseHull, d2.physicsMesh⟩ ∧
  assocFind (notifyDecompositionReceived
      (notifyDecompositionReceived s d2) d1).decompositionMap d1.meshId =
    some ⟨d1.meshId, d1.hull, d1.baseHull, d2.physicsMesh⟩

/-- C7: when a Decomposition arrives for a mesh id that already has a
record, the new partial data is merged into the existing record; two
partial fetches (convex hull block and triangle physics mesh block, in
either order) yield one record containing both, and only a first
arrival is inserted as-is. -/
theorem c7_decomposition_merge (s : DecompSched) (d1 d2 : Decomposition)
    (hid : d2.meshId = d1.meshId)
    (hnone : assocFind s.decompositionMap d1.meshId = none)
    (h1hull : d1.hull ≠ []) (h1pm : d1.physicsMesh = [])
    (h2hull : d2.hull = []) (h2base : d2.baseHull = [])
    (h2pm : d2.physicsMesh ≠ []) :
    DecompMergeSpec s d1 d2 := by
  have e1 : notifyDecompositionReceived s d1 =
      { decompositionMap := assocSet s.decompositionMap d1.meshId d1,
        loadingDecompositions := s.loadingDecompositions.erase d1.meshId } := by
    unfold notifyDecompositionReceived
    rw [hnone]
  have e2 : notifyDecompositionReceived s d2 =
      { decompositionMap := assocSet s.decompositionMap d2.meshId d2,
        loadingDecompositions := s.loadingDecompositions.erase d2.meshId } := by
    unfold notifyDecompositionReceived
    rw [hid, hnone]
  refine ⟨by rw [e1]; exact assocFind_assocSet_self _ _ _, ?_, ?_⟩
  · rw [e1]
    unfold notifyDecompositionReceived
    rw [hid]
    simp only [assocFind_assocSet_self]
    have hpm2 : d2.physicsMesh.isEmpty = false :=
      List.isEmpty_eq_false.mpr h2pm
    unfold Decomposition.merge
    rw [h2hull, h2base, h1pm, hpm2]
    simp
  · rw [e2]
    unfold notifyDecompositionReceived
    rw [hid]
    simp only [assocFind_assocSet_self]
    have hh1 : d1.hull.isEmpty = false :=
      List.isEmpty_eq_false.mpr h1hull
    unfold Decomposition.merge
    rw [hh1, h1pm]
    cases hb : d1.baseHull with
    | nil => simp [hid, h2base, hb]
    | cons a l => simp [hid, hb]

theorem c7_decomposition_merge_witness :
    ((9 : Nat) = 9) ∧
    assocFind (⟨[], []⟩ : DecompSched).decompositionMap 9 = none ∧
    ([3, 4] : List Nat) ≠ [] ∧ ([7] : List Nat) ≠ [] ∧
    DecompMergeSpec ⟨[], []⟩ ⟨9, [3, 4], [5], []⟩ ⟨9, [], [], [7]⟩ :=
  ⟨rfl, by decide, by decide, by decide,
    c7_decomposition_merge ⟨[], []⟩ ⟨9, [3, 4], [5], []⟩ ⟨9, [], [], [7]⟩
      rfl (by decide) (by decide) rfl rfl rfl (by decide)⟩

/-! ## Physics decomposition single hull fallback (C8) -/

/-- `LLVector3` restricted to the operations the fallback uses:
component-wise comparisons and selections, which are exact, so the F32
components are modelled as integers. -/
abbrev V3 := Int × Int × Int

/-- `update_min_max(min, max, p)` from llmath, as used by `make_box`:
component-wise running minimum and maximum. -/
def update_min_max (mn mx p : V3) : V3 × V3 :=
  ((min mn.1 p.1, min mn.2.1 p.2.1, min mn.2.2 p.2.2),
   (max mx.1 p.1, max mx.2.1 p.2.1, max mx.2.2 p.2.2))

/-- `LLPhysicsDecomp::Request` restricted to the fields
`doDecompositionSingleHull` touches: the input vertex positions, the
hull list and the renderable hull meshes. -/
structure DecompRequest where
  positions : List V3
  hull : List (List V3)
  hullMesh : List Nat
deriving DecidableEq, Repr

/-- `make_box(LLPhysicsDecomp::Request*)` (llmeshrepository.cpp:3757):
seeds min = max = positions[0], folds `update_min_max` over all
positions, clears the hull list and pushes the 8 corner points of the
resulting bounding box as the only hull.  The source indexes
positions[0] unconditionally; it is never invoked on an empty position
list, and the embedding leaves that case with an empty hull list. -/
def make_box (req : DecompRequest) : DecompRequest :=
  match req.positions with
  | [] => { req with hull := [] }
  | p0 :: _ =>
    let mm := req.positions.foldl
      (fun acc q => update_min_max acc.1 acc.2 q) (p0, p0)
    let mn := mm.1
    let mx := mm.2
    { req with hull := [[
        (mn.1, mn.2.1, mn.2.2), (mx.1, mn.2.1, mn.2.2),
        (mn.1, mx.2.1, mn.2.2), (mx.1, mx.2.1, mn.2.2),
        (mn.1, mn.2.1, mx.2.2), (mx.1, mn.2.1, mx.2.2),
        (mn.1, mx.2.1, mx.2.2), (mx.1, mx.2.1, mx.2.2)]] }

/-- `LLCDResult` as `doDecompositionSingleHull` tests it: zero is
success, anything else is a failure. -/
inductive LLCDResult where
  | ok
  | failure
deriving DecidableEq, Repr

/-- `LLPhysicsDecomp::doDecompositionSingleHull`
(llmeshrepository.cpp:3784) followed by its unconditional
`completeCurrent()`.  `hasLibrary` models the
`LLConvexDecomposition::getInstance()` null check (stub build), `ret`
the `buildSingleHull()` status, `libHull` the points read back via
`getSingleHull` on success.  Returns the final request, the completed
queue, and whether the request completed. -/
def doDecompositionSingleHull (hasLibrary : Bool) (ret : LLCDResult)
    (libHull : List V3) (req : DecompRequest)
    (completedQ : List DecompRequest) :
    DecompRequest × List DecompRequest × Bool :=
  if hasLibrary then
    let req2 :=
      if ret ≠ LLCDResult.ok then make_box req
      else { req with hull := [libHull], hullMesh := [] }
    (req2, completedQ ++ [req2], true)
  else (req, completedQ, false)

/-- Minimum of a list of integers, seeded from its first element. -/
def listMinI : List Int → Int
  | [] => 0
  | x :: xs => xs.foldl min x

/-- Maximum of a list of integers, seeded from its first element. -/
def listMaxI : List Int → Int
  | [] => 0
  | x :: xs => xs.foldl max x

theorem foldl_update_min_max (l : List V3) :
    ∀ mn mx : V3,
      l.foldl (fun acc q => update_min_max acc.1 acc.2 q) (mn, mx) =
        (((l.map (fun v => v.1)).foldl min mn.1,
          (l.map (fun v => v.2.1)).foldl min mn.2.1,
          (l.map (fun v => v.2.2)).foldl min mn.2.2),
         ((l.map (fun v => v.1)).foldl max mx.1,
          (l.map (fun v => v.2.1)).foldl max mx.2.1,
          (l.map (fun v => v.2.2)).foldl max mx.2.2)) := by
  induction l with
  | nil => intro mn mx; rfl
  | cons p rest ih =>
    intro mn mx
    rw [List.foldl_cons]
    show rest.foldl (fun acc q => update_min_max acc.1 acc.2 q)
        (update_min_max mn mx p) = _
    rw [update_min_max, ih]
    rfl

/-- Outcome asserted by C8: on a failed single hull decomposition the
request completes (it is appended to the completion queue) with its
hull list replaced by the 8 corner points built from the component
wise minima and maxima of its vertex positions. -/
def SingleHullFallbackSpec (ret : LLCDResult) (libHull : List V3)
    (req : DecompRequest) (q : List DecompRequest) : Prop :=
  (doDecompositionSingleHull true ret libHull req q).1.hull =
    [[(listMinI (req.positions.map (fun v => v.1)),
       listMinI (req.positions.map (fun v => v.2.1)),
       listMinI (req.positions.map (fun v => v.2.2))),
      (listMaxI (req.positions.map (fun v => v.1)),
       listMinI (req.positions.map (fun v => v.2.1)),
       listMinI (req.positions.map (fun v => v.2.2))),
      (listMinI (req.positions.map (fun v => v.1)),
       listMaxI (req.positions.map (fun v => v.2.1)),
       listMinI (req.positions.map (fun v => v.2.2))),
      (listMaxI (req.positions.map (fun v => v.1)),
       listMaxI (req.positions.map (fun v => v.2.1)),
       listMinI (req.positions.map (fun v => v.2.2))),
      (listMinI (req.positions.map (fun v => v.1)),
       listMinI (req.positions.map (fun v => v.2.1)),
       listMaxI (req.positions.map (fun v => v.2.2))),
      (listMaxI (req.positions.map (fun v => v.1)),
       listMinI (req.positions.map (fun v => v.2.1)),
       listMaxI (req.positions.map (fun v => v.2.2))),
      (listMinI (req.positions.map (fun v => v.1)),
       listMaxI (req.positions.map (fun v => v.2.1)),
       listMaxI (req.positions.map (fun v => v.2.2))),
      (listMaxI (req.positions.map (fun v => v.1)),
       listMaxI (req.positions.map (fun v => v.2.1)),
       listMaxI (req.positions.map (fun v => v.2.2)))]] ∧
  (doDecompositionSingleHull true ret libHull req q).2.1 =
    q ++ [(doDecompositionSingleHull true ret libHull req q).1] ∧
  (doDecompositionSingleHull true ret libHull req q).2.2 = true ∧
  (doDecompositionSingleHull true ret libHull req q).1.positions =
    req.positions

/-- C8: a failed single hull decomposition call does not propagate an
error: the hull list becomes the trivial bounding box of the 8 corner
points of the component-wise vertex extrema, and the request still
completes onto the completion queue. -/
theorem c8_single_hull_fallback (ret : LLCDResult) (libHull : List V3)
    (req : DecompRequest) (q : List DecompRequest)
    (hret : ret ≠ LLCDResult.ok) (hpos : req.positions ≠ []) :
    SingleHullFallbackSpec ret libHull req q := by
  rcases hp : req.positions with _ | ⟨p0, rest⟩
  · exact absurd hp hpos
  have hbox : make_box req =
      { req with hull := [[
          (listMinI (req.positions.map (fun v => v.1)),
           listMinI (req.positions.map (fun v => v.2.1)),
           listMinI (req.positions.map (fun v => v.2.2))),
          (listMaxI (req.positions.map (fun v => v.1)),
           listMinI (req.positions.map (fun v => v.2.1)),
           listMinI (req.positions.map (fun v => v.2.2))),
          (listMinI (req.positions.map (fun v => v.1)),
           listMaxI (req.positions.map (fun v => v.2.1)),
           listMinI (req.positions.map (fun v => v.2.2))),
          (listMaxI (req.positions.map (fun v => v.1)),
           listMaxI (req.positions.map (fun v => v.2.1)),
           listMinI (req.positions.map (fun v => v.2.2))),
          (listMinI (req.positions.map (fun v => v.1)),
           listMinI (req.positions.map (fun v => v.2.1)),
           listMaxI (req.positions.map (fun v => v.2.2))),
          (listMaxI (req.positions.map (fun v => v.1)),
           listMinI (req.positions.map (fun v => v.2.1)),
           listMaxI (req.positions.map (fun v => v.2.2))),
          (listMinI (req.positions.map (fun v => v.1)),
           listMaxI (req.positions.map (fun v => v.2.1)),
           listMaxI (req.positions.map (fun v => v.2.2))),
          (listMaxI (req.positions.map (fun v => v.1)),
           listMaxI (req.positions.map (fun v => v.2.1)),
           listMaxI (req.positions.map (fun v => v.2.2)))]] } := by
    unfold make_box
    rw [hp]
    simp only [foldl_update_min_max]
    simp [listMinI, listMaxI, min_self, max_self]
  unfold SingleHullFallbackSpec doDecompositionSingleHull
  rw [if_pos rfl, if_pos hret, hbox]
  exact ⟨rfl, rfl, rfl, rfl⟩

theorem c8_single_hull_fallback_witness :
    LLCDResult.failure ≠ LLCDResult.ok ∧
    ([((0 : Int), (2 : Int), (5 : Int)), (4, -1, 3)] : List V3) ≠ [] ∧
    SingleHullFallbackSpec LLCDResult.failure []
      ⟨[(0, 2, 5), (4, -1, 3)], [], []⟩ [] :=
  ⟨by decide, by decide,
    c8_single_hull_fallback LLCDResult.failure []
      ⟨[(0, 2, 5), (4, -1, 3)], [], []⟩ [] (by decide) (by decide)⟩

/-! ## Dedup invariant (C3) -/

theorem countReq_append (l1 l2 : List LODRequest) (p : VolP) (d : Nat) :
    countReq (l1 ++ l2) p d = countReq l1 p d + countReq l2 p d := by
  simp [countReq, List.filter_append]

theorem countKey_append {α : Type} [DecidableEq α] (l1 l2 : List α)
    (a : α) : countKey (l1 ++ l2) a = countKey l1 a + countKey l2 a := by
  simp [countKey, List.filter_append]

theorem countReq_single (p : VolP) (d : Nat) (q : VolP) (e : Nat) :
    countReq [⟨p, d, 0⟩] q e = if p = q ∧ d = e then 1 else 0 := by
  by_cases h : p = q ∧ d = e
  · obtain ⟨rfl, rfl⟩ := h
    simp [countReq]
  · rw [if_neg h]
    simp [countReq, h]

theorem countKey_single {α : Type} [DecidableEq α] (a b : α) :
    countKey [a] b = if a = b then 1 else 0 := by
  by_cases h : a = b
  · subst h; simp [countKey]
  · rw [if_neg h]
    simp [countKey, h]

/-- Scheduler-level dedup invariant: at most one pending scheduler
request per (params, detail), and none at all when no interest set
entry exists for that pair. -/
def SchedInv (s : SchedState) : Prop :=
  ∀ p d, countReq s.pendingRequests p d ≤ 1 ∧
    (assocFind s.loadingMeshes (p, d) = none →
      countReq s.pendingRequests p d = 0)

/-- Thread-level dedup invariant: at most one queued header request
per params, and none at all when no pending-LOD entry exists. -/
def ThreadHdrInv (t : RepoThreadState) : Prop :=
  ∀ p, countKey t.headerReqQ p ≤ 1 ∧
    (assocFind t.pendingLOD p = none → countKey t.headerReqQ p = 0)

theorem loadMesh_preserves_SchedInv (s : SchedState) (v : Nat) (p : VolP)
    (detail lastLod : Int) (loaded : Nat → Bool) (grp : Bool)
    (hinv : SchedInv s) :
    SchedInv (loadMesh s v p detail lastLod loaded grp).1 := by
  by_cases hout : detail < 0 ∨ detail > 4
  · have hres : (loadMesh s v p detail lastLod loaded grp).1 = s := by
      unfold loadMesh
      simp [hout]
    rw [hres]; exact hinv
  · rcases hf : assocFind s.loadingMeshes (p, detail.toNat) with _ | ids
    · have hres : (loadMesh s v p detail lastLod loaded grp).1 =
          { loadingMeshes := assocSet s.loadingMeshes (p, detail.toNat) [v],
            pendingRequests :=
              s.pendingRequests ++ [⟨p, detail.toNat, 0⟩] } := by
        unfold loadMesh
        rw [if_neg hout]
        simp [hf]
      rw [hres]
      intro q e
      constructor
      · simp only [countReq_append, countReq_single]
        by_cases hqe : p = q ∧ detail.toNat = e
        · obtain ⟨rfl, rfl⟩ := hqe
          have h0 : countReq s.pendingRequests p detail.toNat = 0 :=
            (hinv p detail.toNat).2 hf
          simp [h0]
        · have h1 := (hinv q e).1
          rw [if_neg hqe]
          omega
      · intro hnone
        simp only [countReq_append, countReq_single]
        by_cases hqe : (p, detail.toNat) = (q, e)
        · rw [hqe] at hnone
          rw [assocFind_assocSet_self] at hnone
          exact absurd hnone (by simp)
        · rw [assocFind_assocSet_ne _ _ _ _ hqe] at hnone
          have h0 := (hinv q e).2 hnone
          have hne2 : ¬(p = q ∧ detail.toNat = e) := by
            intro hc
            exact hqe (by rw [hc.1, hc.2])
          rw [if_neg hne2]
          omega
    · have hres : (loadMesh s v p detail lastLod loaded grp).1 =
          { s with loadingMeshes :=
              assocSet s.loadingMeshes (p, detail.toNat) (setInsert ids v) } := by
        unfold loadMesh
        rw [if_neg hout]
        simp [hf]
      rw [hres]
      intro q e
      refine ⟨(hinv q e).1, ?_⟩
      intro hnone
      by_cases hqe : (p, detail.toNat) = (q, e)
      · rw [hqe] at hnone
        rw [assocFind_assocSet_self] at hnone
        exact absurd hnone (by simp)
      · rw [assocFind_assocSet_ne _ _ _ _ hqe] at hnone
        exact (hinv q e).2 hnone

theorem loadMeshLOD_preserves_ThreadHdrInv (t : RepoThreadState)
    (p : VolP) (lod : Nat) (hinv : ThreadHdrInv t) :
    ThreadHdrInv (loadMeshLOD t p lod) := by
  unfold loadMeshLOD
  rcases hh : assocFind t.meshHeader p.sculptId with _ | hdr
  · rcases hp : assocFind t.pendingLOD p with _ | lods
    · intro q
      constructor
      · simp only [countKey_append, countKey_single]
        by_cases hq : p = q
        · subst hq
          have h0 := (hinv p).2 hp
          simp [h0]
        · rw [if_neg hq]
          have := (hinv q).1
          omega
      · intro hnone
        simp only at hnone
        by_cases hq : p = q
        · subst hq
          rw [assocFind_assocSet_self] at hnone
          exact absurd hnone (by simp)
        · rw [assocFind_assocSet_ne _ _ _ _ hq] at hnone
          simp only [countKey_append, countKey_single]
          rw [if_neg hq]
          have h0 := (hinv q).2 hnone
          omega
    · intro q
      refine ⟨(hinv q).1, ?_⟩
      intro hnone
      simp only at hnone
      by_cases hq : p = q
      · subst hq
        rw [assocFind_assocSet_self] at hnone
        exact absurd hnone (by simp)
      · rw [assocFind_assocSet_ne _ _ _ _ hq] at hnone
        exact (hinv q).2 hnone
  · intro q
    exact hinv q

/-- Outcome asserted by C3: the two dedup invariants are closed under
any sequence of `loadMesh` calls and any sequence of thread-level
`loadMeshLOD` calls, and a `loadMesh` call finding an existing
interest entry only adds the object id to that interest set, leaving
the pending request vector untouched. -/
def DedupSpec (s : SchedState) (t : RepoThreadState)
    (ops : List (Nat × VolP × Int)) (tops : List (VolP × Nat))
    (lastLod : Int) (loaded : Nat → Bool) (grp : Bool) : Prop :=
  SchedInv (ops.foldl
    (fun st op => (loadMesh st op.1 op.2.1 op.2.2 lastLod loaded grp).1) s) ∧
  ThreadHdrInv (tops.foldl (fun st op => loadMeshLOD st op.1 op.2) t) ∧
  (∀ (v : Nat) (p : VolP) (d : Nat) (ids : List Nat), d ≤ 4 →
    assocFind s.loadingMeshes (p, d) = some ids →
    (loadMesh s v p (d : Int) lastLod loaded grp).1.pendingRequests =
      s.pendingRequests ∧
    (loadMesh s v p (d : Int) lastLod loaded grp).1.loadingMeshes =
      assocSet s.loadingMeshes (p, d) (setInsert ids v))

/-- C3: however many callers register interest, at most one scheduler
pending request per (params, LOD) and at most one queued header
request per params ever exist; later callers merely extend the
interest set of the already registered request. -/
theorem c3_dedup_invariant (s : SchedState) (t : RepoThreadState)
    (ops : List (Nat × VolP × Int)) (tops : List (VolP × Nat))
    (lastLod : Int) (loaded : Nat → Bool) (grp : Bool)
    (hs : SchedInv s) (ht : ThreadHdrInv t) :
    DedupSpec s t ops tops lastLod loaded grp := by
  refine ⟨?_, ?_, ?_⟩
  · clear ht
    induction ops generalizing s with
    | nil => exact hs
    | cons op rest ih =>
      rw [List.foldl_cons]
      exact ih _
        (loadMesh_preserves_SchedInv s op.1 op.2.1 op.2.2 lastLod loaded grp hs)
  · clear hs
    induction tops generalizing t with
    | nil => exact ht
    | cons op rest ih =>
      rw [List.foldl_cons]
      exact ih _ (loadMeshLOD_preserves_ThreadHdrInv t op.1 op.2 ht)
  · intro v p d ids hd4 hfind
    have hout : ¬((d : Int) < 0 ∨ (d : Int) > 4) := by omega
    have htn : ((d : Int)).toNat = d := by omega
    have hres : (loadMesh s v p (d : Int) lastLod loaded grp).1 =
        { s with loadingMeshes :=
            assocSet s.loadingMeshes (p, d) (setInsert ids v) } := by
      unfold loadMesh
      rw [if_neg hout]
      rw [htn]
      simp [hfind]
    rw [hres]
    exact ⟨rfl, rfl⟩

theorem c3_dedup_invariant_witness :
    SchedInv initSchedState ∧ ThreadHdrInv initThreadState ∧
    DedupSpec initSchedState initThreadState
      [(1, ⟨8, 0⟩, 2), (2, ⟨8, 0⟩, 2), (3, ⟨8, 0⟩, 1)]
      [(⟨8, 0⟩, 2), (⟨8, 0⟩, 2), (⟨9, 1⟩, 3)]
      (-1) (fun _ => false) false :=
  have hs : SchedInv initSchedState := by
    intro p d
    constructor <;> simp [initSchedState, countReq]
  have ht : ThreadHdrInv initThreadState := by
    intro p
    constructor <;> simp [initThreadState, countKey]
  ⟨hs, ht,
    c3_dedup_invariant initSchedState initThreadState
      [(1, ⟨8, 0⟩, 2), (2, ⟨8, 0⟩, 2), (3, ⟨8, 0⟩, 1)]
      [(⟨8, 0⟩, 2), (⟨8, 0⟩, 2), (⟨9, 1⟩, 3)]
      (-1) (fun _ => false) false hs ht⟩

/-! ## Scheduler tick: scoring, sorting, throttled forwarding (C6)

The forwarding block of `LLMeshRepository::notifyLoadedMeshes`
(llmeshrepository.cpp:2961-3019).  Float scores are modelled as `Rat`;
`std::partial_sort` with `CompareScoreGreater` is modelled as a full
descending sort followed by take, which forwards the same requests in
the same descending order (the relative order of the non-forwarded
remainder, unspecified by `partial_sort`, is the only difference). -/

/-- Inner loop of the score map computation: running maximum of
`drawable->getRadius() / llmax(drawable->mDistanceWRTCamera, 1.f)`
over the interested object ids, starting from zero; ids with no object
or no drawable contribute nothing. -/
def interestMaxScore (objInfo : Nat → Option (Rat × Rat))
    (ids : List Nat) : Rat :=
  ids.foldl
    (fun acc oid =>
      match objInfo oid with
      | some rd => max acc (rd.1 / max rd.2 1)
      | none => acc) 0

/-- The `score_map` built over `mLoadingMeshes[0..3]`: one write per
interest entry, keyed by the sculpt id (a later entry with the same
sculpt id overwrites an earlier one, as `operator[]` assignment
does). -/
def computeScoreMap (objInfo : Nat → Option (Rat × Rat))
    (loading : List ((VolP × Nat) × List Nat)) : List (Nat × Rat) :=
  (loading.filter (fun e => decide (e.1.2 < 4))).foldl
    (fun m e => assocSet m e.1.1.sculptId (interestMaxScore objInfo e.2)) []

/-- `iter->mScore = score_map[iter->mMeshParams.getSculptID()]` over
the pending vector; a missing score map entry reads as zero. -/
def recomputeScores (scoreMap : List (Nat × Rat))
    (pending : List LODRequest) : List LODRequest :=
  pending.map
    (fun r => { r with
      score := (assocFind scoreMap r.meshParams.sculptId).getD 0 })

/-- `LLMeshRepoThread::CompareScoreGreater`. -/
def scoreGE (a b : LODRequest) : Bool := b.score ≤ a.score

/-- The tick forwarding block: nothing happens unless the active
request count is below the low water mark; then `push_count =
sRequestHighWater - active_count` requests are forwarded from the
front of the pending vector, which is first rescored and sorted by
descending score only when it holds more than `push_count` entries.
The forwarded requests (each handed to `loadMeshLOD` in the source)
are returned alongside the new scheduler state. -/
def tickMesh (objInfo : Nat → Option (Rat × Rat)) (s : SchedState)
    (active low high : Int) : SchedState × List LODRequest :=
  if active < low then
    let pushCount := high - active
    let pending :=
      if (s.pendingRequests.length : Int) > pushCount then
        (recomputeScores (computeScoreMap objInfo s.loadingMeshes)
          s.pendingRequests).mergeSort scoreGE
      else s.pendingRequests
    ({ s with pendingRequests := pending.drop pushCount.toNat },
      pending.take pushCount.toNat)
  else (s, [])

/-- Scheduler state of the C6 counterexample: one pending request with
a stale score of 5 whose only interested object is unknown to the
object list (so the claim formula yields score 0). -/
def cexSched : SchedState :=
  { loadingMeshes := [((⟨1, 0⟩, 2), [7])],
    pendingRequests := [⟨⟨1, 0⟩, 2, 5⟩] }

/-- C6, counterexample to the claim as stated.  With the active count
at the low water mark (16, below the high water mark 32), the tick
leaves the pending request untouched: its score stays 5 even though
the claimed recomputation `radius / max(dist, 1)` maximised over its
(unresolvable) interested object yields 0, and nothing is forwarded.
So the tick does not recompute every pending score. -/
theorem c6_counterexample :
    (tickMesh (fun _ => none) cexSched 16 16 32).1.pendingRequests.map
        (fun r => r.score) = [5] ∧
    interestMaxScore (fun _ => none) [7] = 0 ∧
    ((5 : Rat) ≠ 0) ∧
    (tickMesh (fun _ => none) cexSched 16 16 32).2 = [] := by
  refine ⟨by decide, by decide, by decide, by decide⟩

theorem foldl_assocSet_lookup_notmem {α β γ : Type} [DecidableEq α]
    (key : γ → α) (val : γ → β) :
    ∀ (L : List γ) (m : List (α × β)) (k : α), k ∉ L.map key →
      assocFind (L.foldl (fun acc x => assocSet acc (key x) (val x)) m) k =
        assocFind m k := by
  intro L
  induction L with
  | nil => intro m k _; rfl
  | cons x L ih =>
    intro m k hk
    simp only [List.map_cons, List.mem_cons] at hk
    push_neg at hk
    rw [List.foldl_cons, ih _ k hk.2,
      assocFind_assocSet_ne _ _ _ _ (fun h => hk.1 h.symm)]

theorem foldl_assocSet_lookup {α β γ : Type} [DecidableEq α]
    (key : γ → α) (val : γ → β) :
    ∀ (L : List γ) (m : List (α × β)) (e : γ), e ∈ L →
      (L.map key).Nodup →
      assocFind (L.foldl (fun acc x => assocSet acc (key x) (val x)) m)
          (key e) = some (val e) := by
  intro L
  induction L with
  | nil => intro m e he; exact absurd he (List.not_mem_nil e)
  | cons x L ih =>
    intro m e he hnd
    rw [List.map_cons, List.nodup_cons] at hnd
    rcases List.mem_cons.mp he with rfl | hmem
    · rw [List.foldl_cons,
        foldl_assocSet_lookup_notmem key val L _ (key e) hnd.1,
        assocFind_assocSet_self]
    · rw [List.foldl_cons]
      exact ih _ e hmem hnd.2

/-- The score map answers, for an interest entry whose sculpt id is
not repeated, exactly the running maximum over its interested
objects. -/
theorem computeScoreMap_lookup (objInfo : Nat → Option (Rat × Rat))
    (loading : List ((VolP × Nat) × List Nat)) (p : VolP) (d : Nat)
    (ids : List Nat) (hmem : ((p, d), ids) ∈ loading) (hd : d < 4)
    (hnodup : ((loading.filter (fun e => decide (e.1.2 < 4))).map
      (fun e => e.1.1.sculptId)).Nodup) :
    assocFind (computeScoreMap objInfo loading) p.sculptId =
      some (interestMaxScore objInfo ids) := by
  unfold computeScoreMap
  exact foldl_assocSet_lookup (fun e => e.1.1.sculptId)
    (fun e => interestMaxScore objInfo e.2)
    (loading.filter (fun e => decide (e.1.2 < 4))) [] ((p, d), ids)
    (List.mem_filter.mpr ⟨hmem, by simpa using hd⟩) hnodup

/-- Amended C6 outcome.  The tick forwards only when the active count
is under the low water mark; it then forwards `min(pending, high -
active)` requests.  When the pending vector fits under `high - active`
it is forwarded whole, in arrival order, scores untouched.  Only when
it exceeds `high - active` is it rescored from the score map and
sorted: the forwarded prefix has exactly `high - active` requests,
forwarded and remainder together are a permutation of the rescored
vector, and every forwarded score dominates every remaining score.
Rescoring itself gives each request the score-map entry of its sculpt
id (zero when absent), which for an unrepeated sculpt id is the
running maximum of radius / max(distance, 1) over its interested
objects. -/
def TickSpec (objInfo : Nat → Option (Rat × Rat)) (s : SchedState)
    (active low high : Int) : Prop :=
  (low ≤ active → tickMesh objInfo s active low high = (s, [])) ∧
  (active < low → (s.pendingRequests.length : Int) ≤ high - active →
    (tickMesh objInfo s active low high).2 = s.pendingRequests ∧
    (tickMesh objInfo s active low high).1.pendingRequests = []) ∧
  (active < low → (s.pendingRequests.length : Int) > high - active →
    (tickMesh objInfo s active low high).2 =
      ((recomputeScores (computeScoreMap objInfo s.loadingMeshes)
        s.pendingRequests).mergeSort scoreGE).take (high - active).toNat ∧
    (tickMesh objInfo s active low high).1.pendingRequests =
      ((recomputeScores (computeScoreMap objInfo s.loadingMeshes)
        s.pendingRequests).mergeSort scoreGE).drop (high - active).toNat ∧
    ((tickMesh objInfo s active low high).2 ++
      (tickMesh objInfo s active low high).1.pendingRequests).Perm
      (recomputeScores (computeScoreMap objInfo s.loadingMeshes)
        s.pendingRequests) ∧
    (tickMesh objInfo s active low high).2.length =
      (high - active).toNat ∧
    (∀ f ∈ (tickMesh objInfo s active low high).2,
      ∀ r ∈ (tickMesh objInfo s active low high).1.pendingRequests,
        r.score ≤ f.score)) ∧
  (∀ p d ids, ((p, d), ids) ∈ s.loadingMeshes → d < 4 →
    ((s.loadingMeshes.filter (fun e => decide (e.1.2 < 4))).map
      (fun e => e.1.1.sculptId)).Nodup →
    ∀ r ∈ recomputeScores (computeScoreMap objInfo s.loadingMeshes)
        s.pendingRequests,
      r.meshParams.sculptId = p.sculptId →
      r.score = interestMaxScore objInfo ids)

/-- C6, amended: the tick behaviour as the code implements it — low
water gate, forwarding bound, conditional rescore and descending sort,
and the score formula through the sculpt-id-keyed score map. -/
theorem c6_tick_amended (objInfo : Nat → Option (Rat × Rat))
    (s : SchedState) (active low high : Int) :
    TickSpec objInfo s active low high := by
  have htrans : ∀ a b c : LODRequest, scoreGE a b = true →
      scoreGE b c = true → scoreGE a c = true := by
    intro a b c hab hbc
    simp only [scoreGE, decide_eq_true_eq] at *
    exact le_trans hbc hab
  have htotal : ∀ a b : LODRequest, (scoreGE a b || scoreGE b a) = true := by
    intro a b
    simp only [scoreGE, Bool.or_eq_true, decide_eq_true_eq]
    exact le_total b.score a.score
  refine ⟨?_, ?_, ?_, ?_⟩
  · intro hge
    unfold tickMesh
    rw [if_neg (not_lt.mpr hge)]
  · intro hlt hle
    have hres : tickMesh objInfo s active low high =
        (⟨s.loadingMeshes,
          s.pendingRequests.drop (high - active).toNat⟩,
         s.pendingRequests.take (high - active).toNat) := by
      unfold tickMesh
      rw [if_pos hlt]
      simp only [gt_iff_lt]
      rw [if_neg (by omega :
        ¬(high - active < (s.pendingRequests.length : Int)))]
    have hlen : s.pendingRequests.length ≤ (high - active).toNat := by
      omega
    rw [hres]
    exact ⟨List.take_of_length_le hlen, List.drop_eq_nil_of_le hlen⟩
  · intro hlt hgt
    have hres : tickMesh objInfo s active low high =
        (⟨s.loadingMeshes,
          ((recomputeScores (computeScoreMap objInfo s.loadingMeshes)
            s.pendingRequests).mergeSort scoreGE).drop
            (high - active).toNat⟩,
         ((recomputeScores (computeScoreMap objInfo s.loadingMeshes)
           s.pendingRequests).mergeSort scoreGE).take
           (high - active).toNat) := by
      unfold tickMesh
      rw [if_pos hlt]
      simp only [gt_iff_lt]
      rw [if_pos (by omega :
        high - active < (s.pendingRequests.length : Int))]
    rw [hres]
    have hsorted := @List.sorted_mergeSort LODRequest scoreGE htrans htotal
      (recomputeScores (computeScoreMap objInfo s.loadingMeshes)
        s.pendingRequests)
    have hperm := List.mergeSort_perm
      (recomputeScores (computeScoreMap objInfo s.loadingMeshes)
        s.pendingRequests) scoreGE
    have hlensort := hperm.length_eq
    have hlenrec : (recomputeScores (computeScoreMap objInfo
        s.loadingMeshes) s.pendingRequests).length =
        s.pendingRequests.length := by
      unfold recomputeScores
      exact List.length_map _ _
    refine ⟨rfl, rfl, ?_, ?_, ?_⟩
    · rw [List.take_append_drop]
      exact hperm
    · rw [List.length_take]
      have : (high - active).toNat ≤
          ((recomputeScores (computeScoreMap objInfo s.loadingMeshes)
            s.pendingRequests).mergeSort scoreGE).length := by
        rw [hlensort, hlenrec]
        omega
      omega
    · intro f hf r hr
      have hpw := hsorted
      rw [← List.take_append_drop (high - active).toNat
        ((recomputeScores (computeScoreMap objInfo s.loadingMeshes)
          s.pendingRequests).mergeSort scoreGE)] at hpw
      have := (List.pairwise_append.mp hpw).2.2 f hf r hr
      simpa [scoreGE] using this
  · intro p d ids hmem hd hnodup r hr hsc
    have hmap := computeScoreMap_lookup objInfo s.loadingMeshes p d ids
      hmem hd hnodup
    unfold recomputeScores at hr
    rcases List.mem_map.mp hr with ⟨r0, hr0, rfl⟩
    simp only at hsc
    simp only [hsc, hmap, Option.getD_some]

theorem c6_tick_amended_witness :
    TickSpec (fun _ => none) cexSched 16 16 32 :=
  c6_tick_amended (fun _ => none) cexSched 16 16 32

end MeshRepo
